import Mathlib

/-!
Shallow embedding of the deploy worker of pubstorm-server
(`deployer/deployer/deployer.go`, function `Work`) together with the
parts of the data model it touches.  The database, the object store and
the message broker are modelled explicitly: a `Work` run is a pure
function from an environment (database contents, bundle contents,
injected infrastructure failures) to a `WorkResult` recording the error
returned, every object-store upload performed, every broadcast emitted
and the final database state.

The model packages (`apiserver/models/deployment`, `apiserver/models/project`,
`shared/messages`, `shared/exchanges`) are not part of the source tree we
were given; the definitions that stand in for them are marked
`Modelled from the spec:` in their doc comments.
-/

/-- Deployment lifecycle states, from the spec's state machine
`pending_upload → uploaded → pending_build → pending_deploy → deployed / failed`. -/
inductive DeploymentState where
  | pendingUpload
  | uploaded
  | pendingBuild
  | pendingDeploy
  | deployed
  | failed
deriving Repr, DecidableEq

/-- A row of the deployments table.  `deployedAt` is a nullable timestamp
(modelled as `Option Nat`); `prefixStr` is the random prefix string
(field `Prefix` in Go). -/
structure Deployment where
  id : Nat
  projectId : Nat
  userId : Nat
  prefixStr : String
  state : DeploymentState
  deployedAt : Option Nat
deriving Repr, DecidableEq

/-- Modelled from the spec: `PrefixID` is the content-addressed storage
path component `<prefix>-<id>` of a deployment (the method
`Deployment.PrefixID` lives in the missing models package). -/
def Deployment.prefixID (d : Deployment) : String :=
  d.prefixStr ++ "-" ++ toString d.id

/-- A row of the projects table. -/
structure Project where
  id : Nat
  name : String
  activeDeploymentId : Option Nat
  lockedAt : Option Nat
  forceHTTPS : Bool
deriving Repr, DecidableEq

/-- A row of the domains table: an explicit domain bound to a project. -/
structure Domain where
  id : Nat
  projectId : Nat
  name : String
deriving Repr, DecidableEq

/-- The relational store as seen by the deploy worker. -/
structure DB where
  deployments : List Deployment
  projects : List Project
  domains : List Domain
deriving Repr, DecidableEq

/-- Lookup of a deployment row by primary key (`db.First(depl, id)`). -/
def findDeployment (db : DB) (id : Nat) : Option Deployment :=
  db.deployments.find? (fun x => x.id == id)

/-- Lookup of a project row by primary key
(`db.Where("id = ?", …).First(proj)`). -/
def findProject (db : DB) (id : Nat) : Option Project :=
  db.projects.find? (fun x => x.id == id)

/-- Modelled from the spec: the platform-wide default domain suffix
(`shared.DefaultDomain` in the missing shared package; the tests build the
default domain as `proj.Name + "." + shared.DefaultDomain`). -/
def DefaultDomain : String := "risecloud.dev"

/-- Modelled from the spec: every project implicitly owns a default
domain derived from its name (`Project.DefaultDomainName`). -/
def Project.defaultDomainName (p : Project) : String :=
  p.name ++ "." ++ DefaultDomain

/-- Modelled from the spec: `Project.DomainNames(db)` returns every
domain name currently bound to the project — the default domain plus the
explicit `Domain` rows. -/
def Project.domainNames (p : Project) (db : DB) : List String :=
  p.defaultDomainName :: (db.domains.filter (fun x => x.projectId == p.id)).map Domain.name

/-- Modelled from the spec: the deploy job payload
`{"deployment_id", "skip_webroot_upload", "skip_invalidation", "use_raw_bundle"}`
(`messages.DeployJobData` in the missing shared package). -/
structure DeployJobData where
  deploymentID : Nat
  skipWebrootUpload : Bool
  skipInvalidation : Bool
  useRawBundle : Bool
deriving Repr, DecidableEq

/-- An entry of the unpacked bundle archive, as produced by the tar
reader: a path, a directory flag and (for regular files) the contents. -/
structure TarEntry where
  name : String
  isDir : Bool
  content : String
deriving Repr, DecidableEq

/-- One `S3.Upload` call: remote key, body, content type and ACL. -/
structure UploadCall where
  key : String
  body : String
  contentType : String
  acl : String
deriving Repr, DecidableEq

/-- Modelled from the spec: the name of the well-known cache-invalidation
topic exchange (`exchanges.Edges`). -/
def Edges : String := "edges"

/-- Modelled from the spec: the fixed routing key for invalidation
broadcasts (`exchanges.RouteV1Invalidation`). -/
def RouteV1Invalidation : String := "v1.invalidation"

/-- One broadcast published to the message broker: exchange, routing key
and the domain list carried by the `V1InvalidationMessageData` payload. -/
structure Broadcast where
  exchange : String
  routingKey : String
  domains : List String
deriving Repr, DecidableEq

/-- JSON serialization of a list of strings. -/
def jsonStringArray (xs : List String) : String :=
  "[" ++ String.intercalate "," (xs.map (fun s => "\"" ++ s ++ "\"")) ++ "]"

/-- Modelled from the spec: the JSON body of an invalidation broadcast,
of shape with a single key "domains" holding the domain array. -/
def Broadcast.bodyJson (b : Broadcast) : String :=
  "\x7b\"domains\":" ++ jsonStringArray b.domains ++ "\x7d"

/-- The errors `Work` can return, one constructor per distinct source:
database errors, the `errUnexpectedState` precondition error,
`ErrProjectLocked`, object-store failures, broker publish failures and
transaction failures. -/
inductive WorkErr where
  | dbError
  | unexpectedState
  | projectLocked
  | s3Error
  | publishError
  | txError
deriving Repr, DecidableEq

/-- The observable outcome of one `Work` run: the returned error (`none`
for success), the webroot uploads and pointer-document uploads performed
(in call order), the broadcasts emitted, and the final database state. -/
structure WorkResult where
  error : Option WorkErr
  webrootUploads : List UploadCall
  metaUploads : List UploadCall
  broadcasts : List Broadcast
  db : DB
deriving Repr, DecidableEq

/-- The environment of one `Work` run: the database, the content of the
object store's bundle archives (`none` models a failing download or a
corrupt archive), the MIME table (`mime.TypeByExtension` after
`mimetypes.Register()`), and injected infrastructure failures for
uploads (by remote key), the broker publish and the final transaction. -/
structure Env where
  db : DB
  bundles : String → Option (List TarEntry)
  mimeOf : String → String
  uploadFails : String → Bool
  publishFails : Bool
  txFails : Bool
  now : Nat

/-- Splitting a character list at every slash, as Go's `strings.Split`
on `"/"` does (written over characters so that it evaluates inside the
kernel). -/
def splitOnSlash : List Char → List (List Char)
  | [] => [[]]
  | c :: rest =>
    let r := splitOnSlash rest
    if c = '/' then [] :: r
    else
      match r with
      | [] => [[c]]
      | y :: ys => (c :: y) :: ys

/-- Go `path.Clean`, specialised to the slash-separated paths of tar
headers: resolves `.` and `..` elements and redundant slashes. -/
def pathClean (p : String) : String :=
  match p.data with
  | [] => "."
  | c :: _ =>
    let rooted := c = '/'
    let comps := (splitOnSlash p.data).map String.mk
    let out := comps.foldl (fun acc s =>
      if s = "" ∨ s = "." then acc
      else if s = ".." then
        if rooted then acc.dropLast
        else
          match acc.getLast? with
          | none => acc ++ [".."]
          | some l => if l = ".." then acc ++ [".."] else acc.dropLast
      else acc ++ [s]) []
    let joined := String.intercalate "/" out
    if rooted then "/" ++ joined
    else if joined = "" then "." else joined

/-- Go `filepath.Ext`: the suffix of the last path element starting at
its final dot, or the empty string (helper over the reversed characters). -/
def fileExtAux : List Char → List Char → String
  | [], _ => ""
  | c :: rest, acc =>
    if c = '/' then ""
    else if c = '.' then String.mk ('.' :: acc)
    else fileExtAux rest (c :: acc)

/-- Go `filepath.Ext` of a file name. -/
def fileExt (p : String) : String :=
  fileExtAux p.data.reverse []

/-- Characters before the first semicolon. -/
def takeUntilSemicolon : List Char → List Char
  | [] => []
  | c :: rest => if c = ';' then [] else c :: takeUntilSemicolon rest

/-- The content-type post-processing in `Work`: truncate at the first
";" when present (`strings.Index(contentType, ";")` followed by
slicing; when no semicolon occurs the string is returned whole). -/
def stripMimeParams (ct : String) : String :=
  String.mk (takeUntilSemicolon ct.data)

/-- The pointer document `Work` marshals: a struct with fields
`prefix` and `force_https,omitempty` — so `force_https` is present only
when true. -/
def metaJson (prefixID : String) (forceHTTPS : Bool) : String :=
  if forceHTTPS then
    "\x7b\"prefix\":\"" ++ prefixID ++ "\",\"force_https\":true\x7d"
  else
    "\x7b\"prefix\":\"" ++ prefixID ++ "\"\x7d"

/-- The tar-walking upload loop of `Work`: directories are skipped; each
regular file is uploaded to `<webroot>/<cleaned name>` with its MIME
content type (parameters stripped) and ACL `public-read`.  Returns the
uploads performed and whether the loop completed without an upload error
(a failing upload writes nothing and aborts the loop). -/
def uploadWebrootEntries (env : Env) (webroot : String) :
    List TarEntry → List UploadCall × Bool
  | [] => ([], true)
  | e :: rest =>
    if e.isDir then uploadWebrootEntries env webroot rest
    else
      let fileName := pathClean e.name
      let remotePath := webroot ++ "/" ++ fileName
      let ct := stripMimeParams (env.mimeOf (fileExt fileName))
      if env.uploadFails remotePath then ([], false)
      else
        let r := uploadWebrootEntries env webroot rest
        (⟨remotePath, e.content, ct, "public-read"⟩ :: r.1, r.2)

/-- The single pointer-document upload of the per-domain loop in `Work`:
the body is uploaded to `domains/<domain>/meta.json` with content type
`application/json` and ACL `public-read`. -/
def metaUploadCall (body dom : String) : UploadCall :=
  ⟨"domains/" ++ dom ++ "/meta.json", body, "application/json", "public-read"⟩

/-- The pointer-document upload loop of `Work`: for each domain name, in
order, upload the (shared) pointer document body to
`domains/<domain>/meta.json`; a failing upload writes nothing and
aborts the loop. -/
def uploadMetaDocs (env : Env) (body : String) :
    List String → List UploadCall × Bool
  | [] => ([], true)
  | dom :: rest =>
    if env.uploadFails ("domains/" ++ dom ++ "/meta.json") then ([], false)
    else
      let r := uploadMetaDocs env body rest
      (metaUploadCall body dom :: r.1, r.2)

/-- The download-and-unpack step of the webroot phase: the bundle either
fails to download or unpack (`none`, an object-store error) or yields tar
entries that are uploaded one by one. -/
def bundleStep (env : Env) (depl : Deployment) (ob : Option (List TarEntry)) :
    List UploadCall × Option WorkErr :=
  match ob with
  | none => ([], some WorkErr.s3Error)
  | some entries =>
    ((uploadWebrootEntries env ("deployments/" ++ depl.prefixID ++ "/webroot") entries).1,
     if (uploadWebrootEntries env ("deployments/" ++ depl.prefixID ++ "/webroot") entries).2
     then none else some WorkErr.s3Error)

/-- The webroot phase of `Work` (the `if !d.SkipWebrootUpload` block):
reject an already-deployed deployment, pick the raw or optimized bundle
path, download and unpack it, and upload every regular file.  Returns
the uploads performed and the error, if any. -/
def webrootPhase (env : Env) (d : DeployJobData) (depl : Deployment) :
    List UploadCall × Option WorkErr :=
  if d.skipWebrootUpload then ([], none)
  else if depl.state = DeploymentState.deployed then ([], some WorkErr.unexpectedState)
  else
    bundleStep env depl (env.bundles
      (if d.useRawBundle then "deployments/" ++ depl.prefixID ++ "/raw-bundle.tar.gz"
       else "deployments/" ++ depl.prefixID ++ "/optimized-bundle.tar.gz"))

/-- The activation transaction of `Work` (modelled from the spec for the
missing `deployment.UpdateState`, which sets `state` and stamps
`deployed_at` when moving to `deployed`): inside one transaction the
deployment row is set to state `deployed` with `deployed_at = now`, and
every project row with the project's id gets
`active_deployment_id = depl.id`. -/
def activateDB (db : DB) (depl : Deployment) (proj : Project) (now : Nat) : DB :=
  { db with
    deployments := db.deployments.map (fun x =>
      if x.id == depl.id then { x with state := DeploymentState.deployed, deployedAt := some now } else x),
    projects := db.projects.map (fun p =>
      if p.id == proj.id then { p with activeDeploymentId := some depl.id } else p) }

/-- The tail of `Work`: `db.Begin()` … `tx.Commit()`.  A failing
transaction (begin, either update, or commit) is rolled back and leaves
the database unchanged; otherwise all writes of `activateDB` commit
atomically.  The trailing analytics call is best-effort (logged only)
and has no observable effect here. -/
def finishTx (env : Env) (depl : Deployment) (proj : Project)
    (wu mu : List UploadCall) (bc : List Broadcast) : WorkResult :=
  if env.txFails then ⟨some WorkErr.txError, wu, mu, bc, env.db⟩
  else ⟨none, wu, mu, bc, activateDB env.db depl proj env.now⟩

/-- The metadata phase of `Work`, entered after the webroot phase with
its uploads `wu`: check `proj.LockedAt`, marshal the pointer document,
upload it for every domain name of the project, publish the
invalidation broadcast unless skipped, then run the activation
transaction. -/
def workMeta (env : Env) (d : DeployJobData) (depl : Deployment) (proj : Project)
    (wu : List UploadCall) : WorkResult :=
  if proj.lockedAt.isSome then ⟨some WorkErr.projectLocked, wu, [], [], env.db⟩
  else if (uploadMetaDocs env (metaJson depl.prefixID proj.forceHTTPS)
      (proj.domainNames env.db)).2 = false then
    ⟨some WorkErr.s3Error, wu,
     (uploadMetaDocs env (metaJson depl.prefixID proj.forceHTTPS) (proj.domainNames env.db)).1,
     [], env.db⟩
  else if d.skipInvalidation then
    finishTx env depl proj wu
      (uploadMetaDocs env (metaJson depl.prefixID proj.forceHTTPS) (proj.domainNames env.db)).1 []
  else if env.publishFails then
    ⟨some WorkErr.publishError, wu,
     (uploadMetaDocs env (metaJson depl.prefixID proj.forceHTTPS) (proj.domainNames env.db)).1,
     [], env.db⟩
  else
    finishTx env depl proj wu
      (uploadMetaDocs env (metaJson depl.prefixID proj.forceHTTPS) (proj.domainNames env.db)).1
      [⟨Edges, RouteV1Invalidation, proj.domainNames env.db⟩]

/-- The deploy worker `Work` (deployer/deployer/deployer.go): load the
deployment, reject states `uploaded`/`pending_upload`, load the project,
run the webroot phase, then the metadata phase. -/
def Work (env : Env) (d : DeployJobData) : WorkResult :=
  match findDeployment env.db d.deploymentID with
  | none => ⟨some WorkErr.dbError, [], [], [], env.db⟩
  | some depl =>
    if depl.state = DeploymentState.uploaded ∨ depl.state = DeploymentState.pendingUpload then
      ⟨some WorkErr.unexpectedState, [], [], [], env.db⟩
    else
      match findProject env.db depl.projectId with
      | none => ⟨some WorkErr.dbError, [], [], [], env.db⟩
      | some proj =>
        match webrootPhase env d depl with
        | (wu, some e) => ⟨some e, wu, [], [], env.db⟩
        | (wu, none) => workMeta env d depl proj wu


/-! Concrete environments used to exercise the model: scenario A of the
spec (deployment 42, prefix "ab12", project "foo", raw bundle holding
only `index.html`) and small variations of it. -/

def deplA : Deployment := ⟨42, 7, 3, "ab12", DeploymentState.pendingDeploy, none⟩

def projA : Project := ⟨7, "foo", none, none, false⟩

def bundleA : List TarEntry := [⟨"index.html", false, "hello"⟩]

def mimeA : String → String :=
  fun e => if e = ".html" then "text/html; charset=utf-8" else ""

def envA : Env :=
  ⟨⟨[deplA], [projA], []⟩,
   fun p => if p = "deployments/ab12-42/raw-bundle.tar.gz" then some bundleA else none,
   mimeA, fun _ => false, false, false, 1234⟩

def jobA : DeployJobData := ⟨42, false, false, true⟩

def deplU : Deployment := { deplA with state := DeploymentState.uploaded }

def envU : Env := { envA with db := ⟨[deplU], [projA], []⟩ }

def deplD : Deployment := { deplA with state := DeploymentState.deployed }

def envD : Env := { envA with db := ⟨[deplD], [projA], []⟩ }

def jobD : DeployJobData := ⟨42, true, true, false⟩

def projL : Project := { projA with lockedAt := some 99 }

def envL : Env := { envA with db := ⟨[deplA], [projL], []⟩ }

def dbC8 : DB := ⟨[deplA], [projA], [⟨1, 7, "www.foo.com"⟩, ⟨2, 7, "foo.org"⟩]⟩

def envC8 : Env := { envA with db := dbC8 }

def bC8 : Broadcast :=
  ⟨Edges, RouteV1Invalidation, ["foo." ++ DefaultDomain, "www.foo.com", "foo.org"]⟩

def envC10 : Env :=
  { envA with
    db := ⟨[deplA], [projA], [⟨1, 7, "bar.com"⟩]⟩,
    uploadFails := fun k => k == "domains/bar.com/meta.json" }

/-! Helper lemmas about the run structure of `Work`. -/

lemma work_none (env : Env) (d : DeployJobData)
    (h : findDeployment env.db d.deploymentID = none) :
    Work env d = ⟨some WorkErr.dbError, [], [], [], env.db⟩ := by
  unfold Work; rw [h]

lemma work_badState (env : Env) (d : DeployJobData) (depl : Deployment)
    (h : findDeployment env.db d.deploymentID = some depl)
    (hst : depl.state = DeploymentState.uploaded ∨ depl.state = DeploymentState.pendingUpload) :
    Work env d = ⟨some WorkErr.unexpectedState, [], [], [], env.db⟩ := by
  unfold Work; rw [h]; simp [hst]

lemma work_noProj (env : Env) (d : DeployJobData) (depl : Deployment)
    (h : findDeployment env.db d.deploymentID = some depl)
    (hst : ¬(depl.state = DeploymentState.uploaded ∨ depl.state = DeploymentState.pendingUpload))
    (hp : findProject env.db depl.projectId = none) :
    Work env d = ⟨some WorkErr.dbError, [], [], [], env.db⟩ := by
  unfold Work; rw [h]; simp only [if_neg hst]; rw [hp]

lemma work_phaseErr (env : Env) (d : DeployJobData) (depl : Deployment) (proj : Project)
    (h : findDeployment env.db d.deploymentID = some depl)
    (hst : ¬(depl.state = DeploymentState.uploaded ∨ depl.state = DeploymentState.pendingUpload))
    (hp : findProject env.db depl.projectId = some proj) (e : WorkErr)
    (hw : (webrootPhase env d depl).2 = some e) :
    Work env d = ⟨some e, (webrootPhase env d depl).1, [], [], env.db⟩ := by
  unfold Work; rw [h]; simp only [if_neg hst]; rw [hp]
  cases hwr : webrootPhase env d depl with
  | mk wu oe =>
    rw [hwr] at hw
    simp only at hw
    subst hw
    rfl

lemma work_meta_eq (env : Env) (d : DeployJobData) (depl : Deployment) (proj : Project)
    (h : findDeployment env.db d.deploymentID = some depl)
    (hst : ¬(depl.state = DeploymentState.uploaded ∨ depl.state = DeploymentState.pendingUpload))
    (hp : findProject env.db depl.projectId = some proj)
    (hw : (webrootPhase env d depl).2 = none) :
    Work env d = workMeta env d depl proj (webrootPhase env d depl).1 := by
  unfold Work; rw [h]; simp only [if_neg hst]; rw [hp]
  cases hwr : webrootPhase env d depl with
  | mk wu oe =>
    rw [hwr] at hw
    simp only at hw
    subst hw
    rfl

lemma uploadMetaDocs_split (env : Env) (body : String) (l : List String) :
    ∃ done rest, l = done ++ rest ∧
      (uploadMetaDocs env body l).1 = done.map (metaUploadCall body) ∧
      ((uploadMetaDocs env body l).2 = true → rest = []) := by
  induction l with
  | nil => exact ⟨[], [], rfl, rfl, fun _ => rfl⟩
  | cons dom rest ih =>
    by_cases hf : env.uploadFails ("domains/" ++ dom ++ "/meta.json") = true
    · refine ⟨[], dom :: rest, rfl, ?_, ?_⟩ <;> simp [uploadMetaDocs, hf]
    · obtain ⟨done, r, hl, h1, h2⟩ := ih
      refine ⟨dom :: done, r, by simp [hl], ?_, ?_⟩
      · simp [uploadMetaDocs, hf, h1]
      · intro hok
        apply h2
        simpa [uploadMetaDocs, hf] using hok

lemma uploadMetaDocs_ok (env : Env) (body : String) (l : List String)
    (h : ∀ dm ∈ l, env.uploadFails ("domains/" ++ dm ++ "/meta.json") = false) :
    uploadMetaDocs env body l = (l.map (metaUploadCall body), true) := by
  induction l with
  | nil => rfl
  | cons dom rest ih =>
    have hd := h dom (List.mem_cons_self dom rest)
    have hr := ih (fun dm hm => h dm (List.mem_cons_of_mem dom hm))
    simp [uploadMetaDocs, hd, hr]

lemma uploadMetaDocs_of_true (env : Env) (body : String) (l : List String)
    (h : (uploadMetaDocs env body l).2 = true) :
    (uploadMetaDocs env body l).1 = l.map (metaUploadCall body) := by
  obtain ⟨done, rest, hl, h1, h2⟩ := uploadMetaDocs_split env body l
  have hr := h2 h
  subst hr
  simp at hl
  rw [h1, hl]

lemma workMeta_cases (env : Env) (d : DeployJobData) (depl : Deployment) (proj : Project)
    (wu : List UploadCall) :
    ((workMeta env d depl proj wu).error ≠ none ∧ (workMeta env d depl proj wu).db = env.db) ∨
    ((workMeta env d depl proj wu).error = none ∧
      (workMeta env d depl proj wu).db = activateDB env.db depl proj env.now) := by
  unfold workMeta finishTx
  by_cases hlk : proj.lockedAt.isSome
  · left; simp [hlk]
  · simp only [hlk, if_false, Bool.false_eq_true]
    cases hmd : uploadMetaDocs env (metaJson depl.prefixID proj.forceHTTPS)
        (proj.domainNames env.db) with
    | mk mu ok =>
      cases ok with
      | false => left; exact ⟨by simp, rfl⟩
      | true =>
        by_cases hsi : d.skipInvalidation = true <;>
          by_cases hpf : env.publishFails = true <;>
          by_cases htx : env.txFails = true <;>
          simp [hsi, hpf, htx]

lemma work_cases (env : Env) (d : DeployJobData) :
    ((Work env d).error ≠ none ∧ (Work env d).db = env.db) ∨
    ((Work env d).error = none ∧ ∃ depl proj,
       findDeployment env.db d.deploymentID = some depl ∧
       findProject env.db depl.projectId = some proj ∧
       (Work env d).db = activateDB env.db depl proj env.now) := by
  cases hfd : findDeployment env.db d.deploymentID with
  | none => left; rw [work_none env d hfd]; exact ⟨by simp, rfl⟩
  | some depl =>
    by_cases hst : depl.state = DeploymentState.uploaded ∨ depl.state = DeploymentState.pendingUpload
    · left; rw [work_badState env d depl hfd hst]; exact ⟨by simp, rfl⟩
    · cases hfp : findProject env.db depl.projectId with
      | none => left; rw [work_noProj env d depl hfd hst hfp]; exact ⟨by simp, rfl⟩
      | some proj =>
        cases hwe : (webrootPhase env d depl).2 with
        | some e => left; rw [work_phaseErr env d depl proj hfd hst hfp e hwe]; exact ⟨by simp, rfl⟩
        | none =>
          rw [work_meta_eq env d depl proj hfd hst hfp hwe]
          rcases workMeta_cases env d depl proj (webrootPhase env d depl).1 with ⟨h1, h2⟩ | ⟨h1, h2⟩
          · exact Or.inl ⟨h1, h2⟩
          · exact Or.inr ⟨h1, depl, proj, rfl, hfp, h2⟩

lemma finishTx_broadcasts (env : Env) (depl : Deployment) (proj : Project)
    (wu mu : List UploadCall) (bc : List Broadcast) :
    (finishTx env depl proj wu mu bc).broadcasts = bc := by
  unfold finishTx; split <;> rfl

lemma finishTx_metaUploads (env : Env) (depl : Deployment) (proj : Project)
    (wu mu : List UploadCall) (bc : List Broadcast) :
    (finishTx env depl proj wu mu bc).metaUploads = mu := by
  unfold finishTx; split <;> rfl

lemma workMeta_webrootUploads (env : Env) (d : DeployJobData) (depl : Deployment)
    (proj : Project) (wu : List UploadCall) :
    (workMeta env d depl proj wu).webrootUploads = wu := by
  unfold workMeta finishTx
  split
  · rfl
  · split
    · rfl
    · split
      · split <;> rfl
      · split
        · rfl
        · split <;> rfl

lemma webrootPhase_err (env : Env) (d : DeployJobData) (depl : Deployment) (e : WorkErr)
    (h : (webrootPhase env d depl).2 = some e) :
    e = WorkErr.unexpectedState ∨ e = WorkErr.s3Error := by
  unfold webrootPhase at h
  split at h
  · simp at h
  · split at h
    · simp only at h
      exact Or.inl (Option.some.inj h).symm
    · unfold bundleStep at h
      cases hob : env.bundles
          (if d.useRawBundle then "deployments/" ++ depl.prefixID ++ "/raw-bundle.tar.gz"
           else "deployments/" ++ depl.prefixID ++ "/optimized-bundle.tar.gz") with
      | none =>
        rw [hob] at h
        simp only at h
        exact Or.inr (Option.some.inj h).symm
      | some entries =>
        rw [hob] at h
        simp only at h
        split at h
        · simp at h
        · exact Or.inr (Option.some.inj h).symm

lemma webrootPhase_nonempty (env : Env) (d : DeployJobData) (depl : Deployment)
    (h : (webrootPhase env d depl).1 ≠ []) :
    d.skipWebrootUpload = false ∧ depl.state ≠ DeploymentState.deployed := by
  unfold webrootPhase at h
  by_cases hs : d.skipWebrootUpload = true
  · rw [if_pos hs] at h; exact absurd rfl h
  · refine ⟨by simpa using hs, ?_⟩
    intro hd
    rw [if_neg hs, if_pos hd] at h
    exact absurd rfl h

/-- C1: for every run of `Work` that succeeds, the final database update
sets the deployment's state to `deployed` and its `deployed_at` to a
non-null time, and sets the project's `active_deployment_id` to the
deployment's id; these writes commit in one transaction, so any failing
run leaves the database — in particular `active_deployment_id` — at its
previous value. -/
theorem c1_activation_atomic (env : Env) (d : DeployJobData) (depl : Deployment)
    (h1 : findDeployment env.db d.deploymentID = some depl) :
    ((Work env d).error = none →
      (∀ x ∈ (Work env d).db.deployments, x.id = depl.id →
         x.state = DeploymentState.deployed ∧ x.deployedAt = some env.now) ∧
      (∀ p ∈ (Work env d).db.projects, p.id = depl.projectId →
         p.activeDeploymentId = some depl.id)) ∧
    ((Work env d).error ≠ none → (Work env d).db = env.db) := by
  rcases work_cases env d with ⟨he, hdb⟩ | ⟨he, depl', proj', hd', hp', hdb⟩
  · exact ⟨fun h => absurd h he, fun _ => hdb⟩
  · have hdd : depl' = depl := Option.some.inj (hd'.symm.trans h1)
    subst hdd
    have hpid : proj'.id = depl'.projectId := by
      have := List.find?_some hp'
      simpa using this
    refine ⟨fun _ => ⟨?_, ?_⟩, fun hne => absurd he hne⟩
    · intro x hx hid
      rw [hdb] at hx
      unfold activateDB at hx
      simp only at hx
      obtain ⟨a, ha, hfa⟩ := List.mem_map.mp hx
      by_cases hba : (a.id == depl'.id) = true
      · rw [if_pos hba] at hfa
        exact ⟨by rw [← hfa], by rw [← hfa]⟩
      · rw [if_neg hba] at hfa
        have : (a.id == depl'.id) = true := beq_iff_eq.mpr (by rw [hfa]; exact hid)
        exact absurd this hba
    · intro p hp hpid2
      rw [hdb] at hp
      unfold activateDB at hp
      simp only at hp
      obtain ⟨a, ha, hfa⟩ := List.mem_map.mp hp
      by_cases hba : (a.id == proj'.id) = true
      · rw [if_pos hba] at hfa
        rw [← hfa]
      · rw [if_neg hba] at hfa
        have : (a.id == proj'.id) = true := by
          rw [beq_iff_eq, hfa, hpid2, hpid]
        exact absurd this hba

/-- Witness for C1: in the concrete scenario-A run, which succeeds, the
project row (which sits in the final database and has the project's id)
ends up pointing at deployment 42. -/
theorem c1_witness :
    ({ projA with activeDeploymentId := some 42 } : Project).activeDeploymentId =
      some deplA.id :=
  ((c1_activation_atomic envA jobA deplA rfl).1 rfl).2
    { projA with activeDeploymentId := some 42 } (by decide) (by decide)

/-- C2: a Deploy job whose deployment is in state `uploaded` or
`pending_upload` returns the unexpected-state error with no object-store
upload, no pointer-document write, no broadcast and no database change. -/
theorem c2_unready_state_rejected (env : Env) (d : DeployJobData) (depl : Deployment)
    (h1 : findDeployment env.db d.deploymentID = some depl)
    (h2 : depl.state = DeploymentState.uploaded ∨ depl.state = DeploymentState.pendingUpload) :
    Work env d = ⟨some WorkErr.unexpectedState, [], [], [], env.db⟩ :=
  work_badState env d depl h1 h2

/-- Witness for C2: the scenario-A environment with deployment 42 in
state `uploaded` is rejected without side effects. -/
theorem c2_witness :
    Work envU jobA = ⟨some WorkErr.unexpectedState, [], [], [], envU.db⟩ :=
  c2_unready_state_rejected envU jobA deplU rfl (Or.inl rfl)

/-- C3: a Deploy job with `skip_webroot_upload = false` whose deployment
is already `deployed` returns the unexpected-state error before any file
is uploaded to the object store. -/
theorem c3_deployed_rejected_before_upload (env : Env) (d : DeployJobData)
    (depl : Deployment) (proj : Project)
    (h1 : findDeployment env.db d.deploymentID = some depl)
    (hp : findProject env.db depl.projectId = some proj)
    (h2 : depl.state = DeploymentState.deployed)
    (hs : d.skipWebrootUpload = false) :
    Work env d = ⟨some WorkErr.unexpectedState, [], [], [], env.db⟩ := by
  have hst : ¬(depl.state = DeploymentState.uploaded ∨ depl.state = DeploymentState.pendingUpload) := by
    rw [h2]; rintro (h | h) <;> exact DeploymentState.noConfusion h
  have hph : webrootPhase env d depl = ([], some WorkErr.unexpectedState) := by
    unfold webrootPhase
    rw [hs, if_neg (by simp), if_pos h2]
  have hw := work_phaseErr env d depl proj h1 hst hp WorkErr.unexpectedState (by rw [hph])
  rw [hw, hph]

/-- Witness for C3: scenario A with deployment 42 already `deployed` and
`skip_webroot_upload = false` is rejected with no uploads. -/
theorem c3_witness :
    Work envD jobA = ⟨some WorkErr.unexpectedState, [], [], [], envD.db⟩ :=
  c3_deployed_rejected_before_upload envD jobA deplD projA rfl rfl rfl rfl

/-- C6: a Deploy job with `skip_webroot_upload = false` on a locked
project, with the deployment in a publishable state and the webroot
phase completing, aborts with `ProjectLocked` after the webroot upload:
no pointer document is written, no broadcast is sent, and the database —
in particular the deployment's state — is unchanged. -/
theorem c6_locked_aborts_before_meta (env : Env) (d : DeployJobData)
    (depl : Deployment) (proj : Project)
    (h1 : findDeployment env.db d.deploymentID = some depl)
    (hst : ¬(depl.state = DeploymentState.uploaded ∨ depl.state = DeploymentState.pendingUpload))
    (hp : findProject env.db depl.projectId = some proj)
    (hs : d.skipWebrootUpload = false)
    (hlk : proj.lockedAt.isSome = true)
    (hw : (webrootPhase env d depl).2 = none) :
    Work env d = ⟨some WorkErr.projectLocked, (webrootPhase env d depl).1, [], [], env.db⟩ := by
  rw [work_meta_eq env d depl proj h1 hst hp hw]
  unfold workMeta
  rw [if_pos hlk]

/-- Witness for C6: scenario A with the project locked performs the
webroot upload of `index.html` and then aborts with `ProjectLocked`. -/
theorem c6_witness :
    Work envL jobA = ⟨some WorkErr.projectLocked, (webrootPhase envL jobA deplA).1, [], [], envL.db⟩ :=
  c6_locked_aborts_before_meta envL jobA deplA projL rfl (by decide) rfl rfl rfl rfl

/-- C5 counterexample: the claim says a non-null `locked_at` is checked
at the start of the pipeline and aborts the run there; but on a project
locked from the outset the run still performs the full webroot upload
before failing with `ProjectLocked`, so no start-of-run lock check
exists. -/
theorem c5_counterexample :
    projL.lockedAt ≠ none ∧
    Work envL jobA =
      ⟨some WorkErr.projectLocked,
       [⟨"deployments/ab12-42/webroot/index.html", "hello", "text/html", "public-read"⟩],
       [], [], envL.db⟩ :=
  ⟨by decide, by decide⟩

/-- C5 amended: `Project.locked_at` is checked at exactly one point of
the pipeline — after the webroot phase, just before the metadata
publish.  A non-null `locked_at` there aborts the run with
`ProjectLocked` (after the webroot uploads, before any pointer-document
write), and with a null `locked_at` the run never fails with
`ProjectLocked`. -/
theorem c5_amended_single_lock_check (env : Env) (d : DeployJobData)
    (depl : Deployment) (proj : Project)
    (h1 : findDeployment env.db d.deploymentID = some depl)
    (hst : ¬(depl.state = DeploymentState.uploaded ∨ depl.state = DeploymentState.pendingUpload))
    (hp : findProject env.db depl.projectId = some proj) :
    (proj.lockedAt.isSome = true → (webrootPhase env d depl).2 = none →
       Work env d = ⟨some WorkErr.projectLocked, (webrootPhase env d depl).1, [], [], env.db⟩) ∧
    (proj.lockedAt = none → (Work env d).error ≠ some WorkErr.projectLocked) := by
  constructor
  · intro hlk hw
    rw [work_meta_eq env d depl proj h1 hst hp hw]
    unfold workMeta
    rw [if_pos hlk]
  · intro hlk
    cases hwe : (webrootPhase env d depl).2 with
    | some e =>
      rw [work_phaseErr env d depl proj h1 hst hp e hwe]
      rcases webrootPhase_err env d depl e hwe with h | h <;> simp [h]
    | none =>
      rw [work_meta_eq env d depl proj h1 hst hp hwe]
      unfold workMeta finishTx
      rw [hlk]
      simp only [Option.isSome_none, Bool.false_eq_true, if_false]
      cases hmd : uploadMetaDocs env (metaJson depl.prefixID proj.forceHTTPS)
          (proj.domainNames env.db) with
      | mk mu ok =>
        cases ok with
        | false => simp
        | true =>
          by_cases hsi : d.skipInvalidation = true <;>
            by_cases hpf : env.publishFails = true <;>
            by_cases htx : env.txFails = true <;>
            simp [hsi, hpf, htx]

/-- Witness for C5 (amended): in the locked scenario-A environment the
theorem's first branch yields the `ProjectLocked` abort after the
webroot phase. -/
theorem c5_witness :
    Work envL jobA = ⟨some WorkErr.projectLocked, (webrootPhase envL jobA deplA).1, [], [], envL.db⟩ ∨
    (Work envL jobA).error ≠ some WorkErr.projectLocked :=
  Or.inl ((c5_amended_single_lock_check envL jobA deplA projL rfl (by decide) rfl).1 rfl rfl)

/-- C4 counterexample: the claim says every side-effecting step — the
metadata publish included — is preceded by a re-read state check that
only lets an expected pre-state proceed; but for a deployment observed
in state `deployed` (not a publishable pre-state, per the claim's own
re-publish prohibition) with `skip_webroot_upload = true`, the run
performs the metadata publish and succeeds: no state check guards the
pointer-document write. -/
theorem c4_counterexample :
    (findDeployment envD.db jobD.deploymentID).map Deployment.state =
        some DeploymentState.deployed ∧
    (Work envD jobD).metaUploads =
        [metaUploadCall (metaJson deplD.prefixID false) ("foo." ++ DefaultDomain)] ∧
    (Work envD jobD).error = none :=
  ⟨rfl, by decide, by decide⟩

/-- C4 amended: the deployment's state is read once, at the start of the
run.  The webroot publish happens only when that state was neither
`uploaded`, `pending_upload` nor `deployed` and the upload was not
skipped; the metadata publish is guarded only by the initial
not-`uploaded`/`pending_upload` check and the project-lock check — no
state re-read or deployed-state check precedes it. -/
theorem c4_amended_guards (env : Env) (d : DeployJobData) (depl : Deployment)
    (h1 : findDeployment env.db d.deploymentID = some depl) :
    ((Work env d).webrootUploads ≠ [] →
       d.skipWebrootUpload = false ∧ depl.state ≠ DeploymentState.uploaded ∧
       depl.state ≠ DeploymentState.pendingUpload ∧ depl.state ≠ DeploymentState.deployed) ∧
    ((Work env d).metaUploads ≠ [] →
       depl.state ≠ DeploymentState.uploaded ∧ depl.state ≠ DeploymentState.pendingUpload ∧
       ∃ proj, findProject env.db depl.projectId = some proj ∧ proj.lockedAt = none) := by
  constructor
  · intro hw
    by_cases hst : depl.state = DeploymentState.uploaded ∨ depl.state = DeploymentState.pendingUpload
    · rw [work_badState env d depl h1 hst] at hw
      exact absurd rfl hw
    · cases hfp : findProject env.db depl.projectId with
      | none =>
        rw [work_noProj env d depl h1 hst hfp] at hw
        exact absurd rfl hw
      | some proj =>
        have hwu : (Work env d).webrootUploads = (webrootPhase env d depl).1 := by
          cases hwe : (webrootPhase env d depl).2 with
          | some e => rw [work_phaseErr env d depl proj h1 hst hfp e hwe]
          | none => rw [work_meta_eq env d depl proj h1 hst hfp hwe, workMeta_webrootUploads]
        rw [hwu] at hw
        obtain ⟨hs, hd⟩ := webrootPhase_nonempty env d depl hw
        rw [not_or] at hst
        exact ⟨hs, hst.1, hst.2, hd⟩
  · intro hm
    by_cases hst : depl.state = DeploymentState.uploaded ∨ depl.state = DeploymentState.pendingUpload
    · rw [work_badState env d depl h1 hst] at hm
      exact absurd rfl hm
    · cases hfp : findProject env.db depl.projectId with
      | none =>
        rw [work_noProj env d depl h1 hst hfp] at hm
        exact absurd rfl hm
      | some proj =>
        cases hwe : (webrootPhase env d depl).2 with
        | some e =>
          rw [work_phaseErr env d depl proj h1 hst hfp e hwe] at hm
          exact absurd rfl hm
        | none =>
          rw [work_meta_eq env d depl proj h1 hst hfp hwe] at hm
          unfold workMeta at hm
          by_cases hlk : proj.lockedAt.isSome = true
          · rw [if_pos hlk] at hm
            exact absurd rfl hm
          · have hnone : proj.lockedAt = none := Option.not_isSome_iff_eq_none.mp hlk
            rw [not_or] at hst
            exact ⟨hst.1, hst.2, proj, rfl, hnone⟩

/-- Witness for C4 (amended): applied to the successful re-publish of a
deployed deployment's metadata (scenario of the counterexample). -/
theorem c4_witness :
    deplD.state ≠ DeploymentState.uploaded ∧ deplD.state ≠ DeploymentState.pendingUpload ∧
    ∃ proj, findProject envD.db deplD.projectId = some proj ∧ proj.lockedAt = none :=
  (c4_amended_guards envD jobD deplD rfl).2 (by decide)

/-- C7: the concrete scenario-A run — deployment 42, prefix "ab12",
project "foo" with no explicit domains, raw bundle holding only
`index.html`, job flags (skip_webroot_upload=false,
skip_invalidation=false, use_raw_bundle=true) — uploads the file to
`deployments/ab12-42/webroot/index.html` with public-read visibility,
writes the pointer document to the default domain's `meta.json`, emits
one invalidation broadcast naming exactly the default domain, and
leaves deployment 42 in state `deployed`. -/
theorem c7_scenario_a :
    Work envA jobA =
      ⟨none,
       [⟨"deployments/ab12-42/webroot/index.html", "hello", "text/html", "public-read"⟩],
       [⟨"domains/foo." ++ DefaultDomain ++ "/meta.json", "\x7b\"prefix\":\"ab12-42\"\x7d",
         "application/json", "public-read"⟩],
       [⟨Edges, RouteV1Invalidation, ["foo." ++ DefaultDomain]⟩],
       ⟨[{ deplA with state := DeploymentState.deployed, deployedAt := some 1234 }],
        [{ projA with activeDeploymentId := some 42 }], []⟩⟩ := by
  decide

/-- C8: whenever a run of `Work` emits an invalidation broadcast, the
broadcast goes to the fixed edges exchange with the fixed invalidation
routing key, its domain list is exactly the project's currently bound
domain names (default domain plus explicit domains) with no repetition
(given globally unique explicit names that do not collide with the
default domain), and it is the same list whose pointer documents were
just written. -/
theorem c8_invalidation_exact_domains (env : Env) (d : DeployJobData)
    (depl : Deployment) (proj : Project) (b : Broadcast)
    (h1 : findDeployment env.db d.deploymentID = some depl)
    (hp : findProject env.db depl.projectId = some proj)
    (hb : b ∈ (Work env d).broadcasts)
    (hnd : (env.db.domains.map Domain.name).Nodup)
    (hdef : proj.defaultDomainName ∉
       ((env.db.domains.filter (fun x => x.projectId == proj.id)).map Domain.name)) :
    b.exchange = Edges ∧ b.routingKey = RouteV1Invalidation ∧
    b.domains = proj.domainNames env.db ∧ b.domains.Nodup ∧
    (Work env d).metaUploads = (proj.domainNames env.db).map
       (metaUploadCall (metaJson depl.prefixID proj.forceHTTPS)) := by
  have hnd2 : (proj.domainNames env.db).Nodup := by
    unfold Project.domainNames
    exact List.nodup_cons.mpr ⟨hdef, hnd.sublist ((env.db.domains.filter_sublist).map Domain.name)⟩
  by_cases hst : depl.state = DeploymentState.uploaded ∨ depl.state = DeploymentState.pendingUpload
  · rw [work_badState env d depl h1 hst] at hb
    simp at hb
  · cases hwe : (webrootPhase env d depl).2 with
    | some e =>
      rw [work_phaseErr env d depl proj h1 hst hp e hwe] at hb
      simp at hb
    | none =>
      rw [work_meta_eq env d depl proj h1 hst hp hwe] at hb ⊢
      unfold workMeta at hb ⊢
      by_cases hlk : proj.lockedAt.isSome = true
      · rw [if_pos hlk] at hb
        simp at hb
      · rw [if_neg hlk] at hb ⊢
        by_cases hmf : (uploadMetaDocs env (metaJson depl.prefixID proj.forceHTTPS)
            (proj.domainNames env.db)).2 = false
        · rw [if_pos hmf] at hb
          simp at hb
        · rw [if_neg hmf] at hb ⊢
          have h2 : (uploadMetaDocs env (metaJson depl.prefixID proj.forceHTTPS)
              (proj.domainNames env.db)).2 = true := by
            simpa using hmf
          have hmu := uploadMetaDocs_of_true env (metaJson depl.prefixID proj.forceHTTPS)
              (proj.domainNames env.db) h2
          by_cases hsi : d.skipInvalidation = true
          · rw [if_pos hsi] at hb
            rw [finishTx_broadcasts] at hb
            simp at hb
          · rw [if_neg hsi] at hb ⊢
            by_cases hpf : env.publishFails = true
            · rw [if_pos hpf] at hb
              simp at hb
            · rw [if_neg hpf] at hb ⊢
              rw [finishTx_broadcasts] at hb
              rw [finishTx_metaUploads]
              rcases List.mem_singleton.mp hb with rfl
              exact ⟨rfl, rfl, rfl, hnd2, hmu⟩

/-- Witness for C8: scenario A extended with two explicit domains: the
broadcast lists the default domain and both explicit domains once each,
matching the three pointer documents written. -/
theorem c8_witness :
    bC8.exchange = Edges ∧ bC8.routingKey = RouteV1Invalidation ∧
    bC8.domains = projA.domainNames envC8.db ∧ bC8.domains.Nodup ∧
    (Work envC8 jobA).metaUploads = (projA.domainNames envC8.db).map
       (metaUploadCall (metaJson deplA.prefixID projA.forceHTTPS)) :=
  c8_invalidation_exact_domains envC8 jobA deplA projA bC8 rfl rfl
    (by decide) (by decide) (by decide)

/-- C9: a job with `skip_invalidation = true` never publishes an
invalidation broadcast, and a job with `skip_webroot_upload = true`
never uploads any webroot file to the object store. -/
theorem c9_skip_flags (env : Env) (d : DeployJobData) :
    (d.skipInvalidation = true → (Work env d).broadcasts = []) ∧
    (d.skipWebrootUpload = true → (Work env d).webrootUploads = []) := by
  cases hfd : findDeployment env.db d.deploymentID with
  | none => rw [work_none env d hfd]; exact ⟨fun _ => rfl, fun _ => rfl⟩
  | some depl =>
    by_cases hst : depl.state = DeploymentState.uploaded ∨ depl.state = DeploymentState.pendingUpload
    · rw [work_badState env d depl hfd hst]; exact ⟨fun _ => rfl, fun _ => rfl⟩
    · cases hfp : findProject env.db depl.projectId with
      | none => rw [work_noProj env d depl hfd hst hfp]; exact ⟨fun _ => rfl, fun _ => rfl⟩
      | some proj =>
        have hphase : ∀ hsw : d.skipWebrootUpload = true, webrootPhase env d depl = ([], none) := by
          intro hsw
          unfold webrootPhase
          rw [if_pos hsw]
        cases hwe : (webrootPhase env d depl).2 with
        | some e =>
          rw [work_phaseErr env d depl proj hfd hst hfp e hwe]
          refine ⟨fun _ => rfl, fun hsw => ?_⟩
          simp only [hphase hsw]
        | none =>
          rw [work_meta_eq env d depl proj hfd hst hfp hwe]
          constructor
          · intro hsi
            unfold workMeta
            split
            · rfl
            · cases hmd : uploadMetaDocs env (metaJson depl.prefixID proj.forceHTTPS)
                  (proj.domainNames env.db) with
              | mk mu ok =>
                cases ok with
                | false => rfl
                | true =>
                  exact finishTx_broadcasts env depl proj _ mu []
          · intro hsw
            rw [workMeta_webrootUploads]
            simp only [hphase hsw]

/-- Witness for C9: a job with both skip flags set produces no broadcast
and no webroot upload. -/
theorem c9_witness :
    (Work envA jobD).broadcasts = [] ∧ (Work envA jobD).webrootUploads = [] :=
  ⟨(c9_skip_flags envA jobD).1 rfl, (c9_skip_flags envA jobD).2 rfl⟩

/-- C10: when a run that has passed the lock check fails before the
activation transaction commits — a pointer-document upload fails, the
invalidation publish fails, or the transaction fails — `Work` returns
the error with the database (deployment state and
`active_deployment_id`) unchanged, while every pointer document already
uploaded in that run remains written with the new `PrefixID`: the
domain list splits into a written part and an untouched remainder, and
nothing is rolled back. -/
theorem c10_meta_writes_persist (env : Env) (d : DeployJobData)
    (depl : Deployment) (proj : Project)
    (h1 : findDeployment env.db d.deploymentID = some depl)
    (hst : ¬(depl.state = DeploymentState.uploaded ∨ depl.state = DeploymentState.pendingUpload))
    (hp : findProject env.db depl.projectId = some proj)
    (hwe : (webrootPhase env d depl).2 = none)
    (hlk : proj.lockedAt = none)
    (herr : (Work env d).error ≠ none) :
    (Work env d).db = env.db ∧
    ∃ done rest, proj.domainNames env.db = done ++ rest ∧
      (Work env d).metaUploads =
        done.map (metaUploadCall (metaJson depl.prefixID proj.forceHTTPS)) := by
  rw [work_meta_eq env d depl proj h1 hst hp hwe] at herr ⊢
  unfold workMeta at herr ⊢
  have hlk2 : ¬proj.lockedAt.isSome = true := by simp [hlk]
  rw [if_neg hlk2] at herr ⊢
  by_cases hmf : (uploadMetaDocs env (metaJson depl.prefixID proj.forceHTTPS)
      (proj.domainNames env.db)).2 = false
  · rw [if_pos hmf] at herr ⊢
    obtain ⟨done, rest, hl, hmap, _⟩ := uploadMetaDocs_split env
      (metaJson depl.prefixID proj.forceHTTPS) (proj.domainNames env.db)
    exact ⟨rfl, done, rest, hl, hmap⟩
  · rw [if_neg hmf] at herr ⊢
    have h2 : (uploadMetaDocs env (metaJson depl.prefixID proj.forceHTTPS)
        (proj.domainNames env.db)).2 = true := by
      simpa using hmf
    have hful := uploadMetaDocs_of_true env (metaJson depl.prefixID proj.forceHTTPS)
        (proj.domainNames env.db) h2
    by_cases hsi : d.skipInvalidation = true
    · rw [if_pos hsi] at herr ⊢
      unfold finishTx at herr ⊢
      by_cases htx : env.txFails = true
      · rw [if_pos htx] at herr ⊢
        exact ⟨rfl, proj.domainNames env.db, [], (List.append_nil _).symm, hful⟩
      · rw [if_neg htx] at herr
        exact absurd rfl herr
    · rw [if_neg hsi] at herr ⊢
      by_cases hpf : env.publishFails = true
      · rw [if_pos hpf] at herr ⊢
        exact ⟨rfl, proj.domainNames env.db, [], (List.append_nil _).symm, hful⟩
      · rw [if_neg hpf] at herr ⊢
        unfold finishTx at herr ⊢
        by_cases htx : env.txFails = true
        · rw [if_pos htx] at herr ⊢
          exact ⟨rfl, proj.domainNames env.db, [], (List.append_nil _).symm, hful⟩
        · rw [if_neg htx] at herr
          exact absurd rfl herr

/-- Witness for C10: with an explicit domain `bar.com` whose
pointer-document upload fails, the run errors, the database is
unchanged, and the default domain's pointer document (written first)
persists with the new prefix. -/
theorem c10_witness :
    (Work envC10 jobA).db = envC10.db ∧
    ∃ done rest, projA.domainNames envC10.db = done ++ rest ∧
      (Work envC10 jobA).metaUploads =
        done.map (metaUploadCall (metaJson deplA.prefixID projA.forceHTTPS)) :=
  c10_meta_writes_persist envC10 jobA deplA projA rfl (by decide) rfl (by decide)
    rfl (by decide)
